import Mathlib

/-!
Shallow embedding of the Discord guild-membership synchronization routines of
`src/app/services/discord.server.ts`: the paginated roster fetcher
`fetchAllGuildMembers` (with its page helper `fetchGuildMembersChunk`) and the
snapshot lookup `isMemberOfGuild`, together with the JSON serialization the
code performs with `JSON.stringify` / `JSON.parse` and the shared key-value
store (redis) the lookup reads from.
-/

namespace Market

/-- The nested `user` object of a guild-member record; the code only ever
reads its `id` field (a string snowflake). -/
structure DiscordUser where
  id : String
deriving DecidableEq

/-- One entry of the guild roster as returned by the upstream API.  The code
interprets only the nested `user.id`; all other metadata is opaque and is not
modelled. -/
structure GuildMember where
  user : DiscordUser
deriving DecidableEq

/-- JSON string escaping as `JSON.stringify` performs it on the id strings
appearing in a member record: a quote or backslash character is preceded by a
backslash, every other character passes through unchanged. -/
def escapeChars : List Char → List Char
  | [] => []
  | c :: cs =>
    if c = '"' ∨ c = '\\' then '\\' :: c :: escapeChars cs
    else c :: escapeChars cs

/-- Serialization (`JSON.stringify`) of a single guild-member record, restricted to the
modelled shape `\x7b"user":\x7b"id":"..."\x7d\x7d`. -/
def stringifyMember (m : GuildMember) : String :=
  "\x7b\"user\":\x7b\"id\":\"" ++ String.mk (escapeChars m.user.id.data) ++ "\"\x7d\x7d"

/-- Comma-separated join of the serialized array elements, as
`JSON.stringify` lays out a JSON array body. -/
def joinComma : List String → String
  | [] => ""
  | [s] => s
  | s :: rest => s ++ "," ++ joinComma rest

/-- Serialization (`JSON.stringify`) applied to a sequence of guild members (the value the
fetcher returns and the snapshot the store holds). -/
def JSONstringify (members : List GuildMember) : String :=
  "[" ++ joinComma (members.map stringifyMember) ++ "]"

/-- Scan a JSON string body up to its closing unescaped quote, undoing the
escapes of `escapeChars`; returns the decoded characters and the remainder
after the closing quote. -/
def scanJsonString : List Char → Option (List Char × List Char)
  | [] => none
  | c :: cs =>
    if c = '"' then some ([], cs)
    else if c = '\\' then
      match cs with
      | [] => none
      | d :: ds => (scanJsonString ds).map (fun r => (d :: r.1, r.2))
    else (scanJsonString cs).map (fun r => (c :: r.1, r.2))

/-- Expect a literal run of characters at the head of the input; on success
return the remainder. -/
def expectLit : List Char → List Char → Option (List Char)
  | [], cs => some cs
  | _ :: _, [] => none
  | l :: ls, c :: cs => if c = l then expectLit ls cs else none

/-- The characters opening one serialized member record. -/
def memberOpen : List Char := "\x7b\"user\":\x7b\"id\":\"".data

/-- The characters closing one serialized member record (after the id's
closing quote). -/
def memberClose : List Char := "\x7d\x7d".data

/-- Parse one serialized member record; returns the record and the
remainder. -/
def parseMember (cs : List Char) : Option (GuildMember × List Char) :=
  match expectLit memberOpen cs with
  | none => none
  | some cs1 =>
    match scanJsonString cs1 with
    | none => none
    | some (idChars, cs2) =>
      match expectLit memberClose cs2 with
      | none => none
      | some cs3 => some (⟨⟨String.mk idChars⟩⟩, cs3)

/-- Parse the members of a non-empty JSON array body (the characters after
the opening bracket), fuelled by the input length. -/
def parseItems : Nat → List Char → Option (List GuildMember)
  | 0, _ => none
  | fuel + 1, cs =>
    match parseMember cs with
    | none => none
    | some (m, rest) =>
      match rest with
      | [']'] => some [m]
      | ',' :: rest2 => (parseItems fuel rest2).map (fun ms => m :: ms)
      | _ => none

/-- Deserialization (`JSON.parse`) of a snapshot blob, composed with the subsequent use of the
result as an array of member records: succeeds exactly on a JSON array of
records of the modelled shape, and fails otherwise (in the program either
`JSON.parse` itself throws, or the later `.find` call throws on a non-array
value; both failure modes surface as an exception). -/
def JSONparseMembers (s : String) : Option (List GuildMember) :=
  match s.data with
  | '[' :: rest => if rest = [']'] then some [] else parseItems rest.length rest
  | _ => none

/-- Modelled from the spec: the shared key-value store (`redis.server`, not
part of the reviewed sources) holding at most one string value per key, with
atomic whole-value reads and writes. -/
def Store := String → Option String

/-- Modelled from the spec: a read from the shared store
(`redisClient.get`); returns the value at the key and leaves the store as it
was. -/
def storeGet (st : Store) (key : String) : Option String × Store :=
  (st key, st)

/-- Modelled from the spec: a whole-value overwrite of one key of the shared
store (the external collaborator that persists the fetcher's output). -/
def storeSet (st : Store) (key v : String) : Store :=
  fun k => if k = key then some v else st k

/-- The fixed key under which the member snapshot is persisted. -/
def snapshotKey : String := "discordGuildMembers"

/-- A JavaScript runtime exception escaping the routine. -/
inductive JsError where
  /-- For example calling `.find` on `null` or on a falsy non-array value. -/
  | typeError
  /-- Thrown when `JSON.parse` (or the array use of its result) fails on the input. -/
  | syntaxError
deriving DecidableEq

instance {ε α : Type} [DecidableEq ε] [DecidableEq α] : DecidableEq (Except ε α) := fun a b =>
  match a, b with
  | .ok x, .ok y =>
    if h : x = y then .isTrue (by rw [h]) else .isFalse (by intro hc; cases hc; exact h rfl)
  | .error x, .error y =>
    if h : x = y then .isTrue (by rw [h]) else .isFalse (by intro hc; cases hc; exact h rfl)
  | .ok _, .error _ => .isFalse (by intro hc; cases hc)
  | .error _, .ok _ => .isFalse (by intro hc; cases hc)

/-- The lookup `isMemberOfGuild(id)`: reads the snapshot blob from the store under the
fixed key, short-circuits on a falsy value (`discordGuildMembers && ...`),
parses it, and scans for an entry whose `user.id` equals `id`, returning
`!!matchingUser`.  A falsy store value (absent key, or the empty string)
flows into `.find` and raises a `TypeError`.  The `console.log` call has no
modelled effect.  The store is threaded through explicitly to record that
the routine only reads it. -/
def isMemberOfGuild (st : Store) (id : String) : Except JsError Bool × Store :=
  match storeGet st snapshotKey with
  | (discordGuildMembers, st') =>
    match discordGuildMembers with
    | none => (.error .typeError, st')
    | some s =>
      if s = "" then (.error .typeError, st')
      else
        match JSONparseMembers s with
        | none => (.error .syntaxError, st')
        | some parsedResult =>
          (.ok (parsedResult.find? (fun resultItem => resultItem.user.id == id)).isSome, st')

/-- The body of one upstream page response, as observed through
`response.json()`. -/
inductive ResponseBody where
  /-- A JSON array of guild-member records. -/
  | arr (members : List GuildMember)
  /-- Some other successfully parsed JSON value — one whose `.length` is not
  a positive number (an error object, `null`, a number, an empty string...),
  so that the code's `newMembers.length > 0` test is false. -/
  | nonArray
  /-- An unparseable body: `response.json()` throws. -/
  | malformed
deriving DecidableEq

/-- One upstream page response: the HTTP status code (which the code never
inspects) and the body. -/
structure PageResponse where
  status : Nat
  body : ResponseBody
deriving DecidableEq

/-- The upstream Discord API as the fetcher sees it: the page response as a
function of the pagination cursor sent in the `after` query parameter
(`fetchGuildMembersChunk`'s `lastUserId`).  Authentication headers and the
URL itself carry no further information. -/
def Upstream := Option String → PageResponse

/-- The page helper `fetchGuildMembersChunk(lastUserId)`: issues one page request with
cursor `lastUserId` and hands back the raw response. -/
def fetchGuildMembersChunk (upstream : Upstream) (lastUserId : Option String) : PageResponse :=
  upstream lastUserId

/-- The outcome of a `fetchAllGuildMembers` run. -/
inductive FetchResult where
  /-- Normal return: the serialized member sequence. -/
  | ok (serialized : String)
  /-- The parse `clonedResponse.json()` threw on a malformed body; the whole chain
  aborts with this exception. -/
  | jsonThrow
  /-- The cursor read `lastItem.user.id` threw because `lastItem` was `undefined` (the
  combined sequence was empty on the recursion branch). -/
  | derefThrow
  /-- The fuel bound was exhausted before the recursion returned (the model's
  stand-in for a run that has not yet terminated). -/
  | outOfFuel
deriving DecidableEq

/-- One run of the fetcher: its outcome, the cursor sent with each page
request in order, and the shared store after the run (threaded through to
record that the routine performs no store operation). -/
structure FetchRun where
  result : FetchResult
  requests : List (Option String)
  store : Store

/-- The fetcher `fetchAllGuildMembers(previousMembers, lastUserId)`: fetches one page
via `fetchGuildMembersChunk`, parses it (`clonedResponse.json()`), and
  - on a malformed body: the parse throws and the exception propagates;
  - if `newMembers.length > 0`: concatenates the page onto
    `previousMembers`, reads `lastItem = members[members.length - 1]`
    (dereferencing `lastItem.user.id` throws if it is `undefined`), and
    recurses with the combined list and `lastItem.user.id` as cursor;
  - otherwise (empty page, or a parsed value without positive `.length`):
    returns `JSON.stringify(members)` where `members = previousMembers`.
Recursion depth is fuelled; the source recursion is unbounded. -/
def fetchAllGuildMembers (upstream : Upstream) :
    Nat → Store → List GuildMember → Option String → FetchRun
  | 0, st, _, _ => ⟨.outOfFuel, [], st⟩
  | fuel + 1, st, previousMembers, lastUserId =>
    let response := fetchGuildMembersChunk upstream lastUserId
    match response.body with
    | .malformed => ⟨.jsonThrow, [lastUserId], st⟩
    | .nonArray => ⟨.ok (JSONstringify previousMembers), [lastUserId], st⟩
    | .arr newMembers =>
      if 0 < newMembers.length then
        let members := previousMembers ++ newMembers
        match members.getLast? with
        | none => ⟨.derefThrow, [lastUserId], st⟩
        | some lastItem =>
          let next := fetchAllGuildMembers upstream fuel st members (some lastItem.user.id)
          ⟨next.result, lastUserId :: next.requests, next.store⟩
      else ⟨.ok (JSONstringify previousMembers), [lastUserId], st⟩

/-- The fixed page size the code requests (`limit=1000`). -/
def pageSize : Nat := 1000

/-- Modelled upstream for the roster-exhaustion claims: a fixed finite
roster served in cursor-positioned pages.  With no cursor the first
`pageSize` members are served; with cursor `c` the `pageSize` members
strictly after the member whose `user.id` is `c` are served (none when `c`
is unknown).  Every response has status 200. -/
def pagedUpstream (roster : List GuildMember) : Upstream := fun cursor =>
  match cursor with
  | none => ⟨200, .arr (roster.take pageSize)⟩
  | some c =>
    ⟨200, .arr ((((roster.dropWhile (fun m => m.user.id ≠ c))).drop 1).take pageSize)⟩

/-- The `user.id` of the `k`-th member of the roster (1-based), the cursor
the fetcher sends after having accumulated `k` members. -/
def memberIdAt (roster : List GuildMember) (k : Nat) : String :=
  (roster.map (fun m => m.user.id)).getD (k - 1) ""

/-- The request sequence stops at its first empty page: every request but
the last received a non-empty member array, and the last received the empty
array. -/
def stopsAtFirstEmptyPage (upstream : Upstream) (requests : List (Option String)) : Prop :=
  (∀ c ∈ requests.dropLast, ∃ ms, (upstream c).body = .arr ms ∧ ms ≠ []) ∧
  (∀ c ∈ requests.getLast?, (upstream c).body = .arr [])

/-- The everywhere-empty store. -/
def st0 : Store := fun _ => none

/-! ## Serialization round trip -/

theorem expectLit_append (ls cs : List Char) : expectLit ls (ls ++ cs) = some cs := by
  induction ls with
  | nil => rfl
  | cons l ls ih => simp [expectLit, ih]

theorem scanJsonString_escape (l rest : List Char) :
    scanJsonString (escapeChars l ++ '"' :: rest) = some (l, rest) := by
  induction l with
  | nil =>
    rw [escapeChars, List.nil_append, scanJsonString.eq_def]
    simp
  | cons c cs ih =>
    by_cases hc : c = '"' ∨ c = '\\'
    · rw [escapeChars, if_pos hc, List.cons_append, List.cons_append,
        scanJsonString.eq_def]
      simp [ih]
    · push_neg at hc
      rw [escapeChars, if_neg (by tauto : ¬(c = '"' ∨ c = '\\')), List.cons_append,
        scanJsonString.eq_def]
      simp [hc.1, hc.2, ih]

theorem stringifyMember_data (m : GuildMember) :
    (stringifyMember m).data =
      memberOpen ++ (escapeChars m.user.id.data ++ '"' :: memberClose) := by
  simp [stringifyMember, memberOpen, memberClose, String.data_append]

theorem parseMember_stringify (m : GuildMember) (rest : List Char) :
    parseMember ((stringifyMember m).data ++ rest) = some (m, rest) := by
  obtain ⟨⟨id⟩⟩ := m
  obtain ⟨l⟩ := id
  rw [parseMember, stringifyMember_data]
  rw [List.append_assoc, expectLit_append]
  have h2 : escapeChars l ++ '"' :: memberClose ++ rest
      = escapeChars l ++ '"' :: (memberClose ++ rest) := by simp
  simp only [h2, scanJsonString_escape, expectLit_append]

theorem joinComma_cons_cons (s t : String) (rest : List String) :
    joinComma (s :: t :: rest) = s ++ "," ++ joinComma (t :: rest) := rfl

theorem stringifyMember_data_length_pos (m : GuildMember) :
    0 < (stringifyMember m).data.length := by
  rw [stringifyMember_data]
  simp [memberOpen]

theorem length_le_joinComma_data_length (ms : List GuildMember) :
    ms.length ≤ (joinComma (ms.map stringifyMember)).data.length := by
  induction ms with
  | nil => simp [joinComma]
  | cons m ms ih =>
    cases ms with
    | nil =>
      have := stringifyMember_data_length_pos m
      simpa [joinComma] using this
    | cons m' ms' =>
      rw [List.map_cons, List.map_cons, joinComma_cons_cons]
      have := stringifyMember_data_length_pos m
      simp only [String.data_append, List.length_append, List.length_cons]
      simp only [List.map_cons, List.length_cons] at ih
      omega

theorem parseItems_stringify (ms : List GuildMember) (hne : ms ≠ []) :
    ∀ fuel, ms.length ≤ fuel →
      parseItems fuel ((joinComma (ms.map stringifyMember)).data ++ [']']) = some ms := by
  induction ms with
  | nil => exact absurd rfl hne
  | cons m ms ih =>
    intro fuel hfuel
    obtain ⟨fuel, rfl⟩ : ∃ f, fuel = f + 1 := by
      cases fuel with
      | zero => simp at hfuel
      | succ f => exact ⟨f, rfl⟩
    cases ms with
    | nil =>
      simp only [List.map_cons, List.map_nil, joinComma]
      rw [parseItems, parseMember_stringify]
      rfl
    | cons m' ms' =>
      rw [List.map_cons, List.map_cons, joinComma_cons_cons]
      have hdata :
          (stringifyMember m ++ ","
              ++ joinComma (stringifyMember m' :: List.map stringifyMember ms')).data
            ++ [']']
          = (stringifyMember m).data
            ++ (',' :: ((joinComma (stringifyMember m' :: List.map stringifyMember ms')).data
                ++ [']'])) := by
        simp [String.data_append]
      rw [hdata, parseItems, parseMember_stringify]
      have hrec := ih (by simp) fuel (by simp only [List.length_cons] at hfuel ⊢; omega)
      simp only [List.map_cons] at hrec
      simp [hrec]

theorem JSONstringify_data (ms : List GuildMember) :
    (JSONstringify ms).data = '[' :: ((joinComma (ms.map stringifyMember)).data ++ [']']) := by
  simp [JSONstringify, String.data_append]

theorem JSONstringify_ne_empty (ms : List GuildMember) : JSONstringify ms ≠ "" := by
  intro h
  have := congrArg String.data h
  rw [JSONstringify_data] at this
  simp at this

theorem JSONparse_JSONstringify (ms : List GuildMember) :
    JSONparseMembers (JSONstringify ms) = some ms := by
  cases ms with
  | nil => decide
  | cons m ms =>
    rw [JSONparseMembers]
    rw [JSONstringify_data]
    have hne : (joinComma ((m :: ms).map stringifyMember)).data ++ [']'] ≠ [']'] := by
      intro h
      have hlen := congrArg List.length h
      have h1 := length_le_joinComma_data_length (m :: ms)
      simp at hlen
      simp [hlen] at h1
    simp only [if_neg hne]
    apply parseItems_stringify (m :: ms) (by simp)
    have h1 := length_le_joinComma_data_length (m :: ms)
    simp only [List.length_cons] at h1 ⊢
    simp only [List.length_append, List.length_cons, List.length_nil]
    omega

/-! ## Lookup and store lemmas -/

theorem isMemberOfGuild_snapshot (st : Store) (ms : List GuildMember) (uid : String) :
    isMemberOfGuild (storeSet st snapshotKey (JSONstringify ms)) uid
      = (.ok ((ms.find? (fun r => r.user.id == uid)).isSome),
         storeSet st snapshotKey (JSONstringify ms)) := by
  simp [isMemberOfGuild, storeGet, storeSet, JSONparse_JSONstringify,
    JSONstringify_ne_empty ms]

theorem isMemberOfGuild_store (st : Store) (uid : String) :
    (isMemberOfGuild st uid).2 = st := by
  simp only [isMemberOfGuild, storeGet]
  rcases hd : st snapshotKey with _ | s
  · rfl
  · by_cases hs : s = ""
    · simp [hs]
    · rcases hp : JSONparseMembers s with _ | ms <;> simp [hs, hp]

theorem isMemberOfGuild_absent (st : Store) (uid : String)
    (h : st snapshotKey = none) :
    isMemberOfGuild st uid = (.error .typeError, st) := by
  simp only [isMemberOfGuild, storeGet, h]

/-! ## Fetch unfolding lemmas -/

theorem fetchAllGuildMembers_store (upstream : Upstream) :
    ∀ fuel st acc c, (fetchAllGuildMembers upstream fuel st acc c).store = st := by
  intro fuel
  induction fuel with
  | zero => intro st acc c; rfl
  | succ fuel ih =>
    intro st acc c
    rw [fetchAllGuildMembers.eq_def]
    rcases h : (fetchGuildMembersChunk upstream c).body with page | _ | _
    · simp only [h]
      split
      · rcases hg : ((acc ++ page).getLast?) with _ | lastItem
        · simp [hg]
        · simp [hg, ih]
      · rfl
    · simp only [h]
    · simp only [h]

theorem fetchAllGuildMembers_succ_malformed (upstream : Upstream) (fuel : Nat) (st : Store)
    (acc : List GuildMember) (c : Option String)
    (h : (upstream c).body = .malformed) :
    fetchAllGuildMembers upstream (fuel + 1) st acc c = ⟨.jsonThrow, [c], st⟩ := by
  rw [fetchAllGuildMembers.eq_def]
  simp only [fetchGuildMembersChunk, h]

theorem fetchAllGuildMembers_succ_nonArray (upstream : Upstream) (fuel : Nat) (st : Store)
    (acc : List GuildMember) (c : Option String)
    (h : (upstream c).body = .nonArray) :
    fetchAllGuildMembers upstream (fuel + 1) st acc c
      = ⟨.ok (JSONstringify acc), [c], st⟩ := by
  rw [fetchAllGuildMembers.eq_def]
  simp only [fetchGuildMembersChunk, h]

theorem fetchAllGuildMembers_succ_arr_nil (upstream : Upstream) (fuel : Nat) (st : Store)
    (acc : List GuildMember) (c : Option String)
    (h : (upstream c).body = .arr []) :
    fetchAllGuildMembers upstream (fuel + 1) st acc c
      = ⟨.ok (JSONstringify acc), [c], st⟩ := by
  rw [fetchAllGuildMembers.eq_def]
  simp only [fetchGuildMembersChunk, h]
  simp

theorem fetchAllGuildMembers_succ_arr_pos (upstream : Upstream) (fuel : Nat) (st : Store)
    (acc : List GuildMember) (c : Option String) (page : List GuildMember)
    (h : (upstream c).body = .arr page) (hpos : page ≠ []) (lastItem : GuildMember)
    (hlast : (acc ++ page).getLast? = some lastItem) :
    fetchAllGuildMembers upstream (fuel + 1) st acc c =
      ⟨(fetchAllGuildMembers upstream fuel st (acc ++ page) (some lastItem.user.id)).result,
       c :: (fetchAllGuildMembers upstream fuel st (acc ++ page) (some lastItem.user.id)).requests,
       (fetchAllGuildMembers upstream fuel st (acc ++ page) (some lastItem.user.id)).store⟩ := by
  rw [fetchAllGuildMembers.eq_def]
  simp only [fetchGuildMembersChunk, h]
  rw [if_pos (by simpa [List.length_pos] using hpos), hlast]

/-! ## Paged-roster upstream lemmas -/

theorem dropWhile_middle_eq {α : Type} (p : α → Bool) (l₁ : List α) (a : α) (l₂ : List α)
    (h₁ : ∀ x ∈ l₁, p x = true) (h₂ : p a = false) :
    (l₁ ++ a :: l₂).dropWhile p = a :: l₂ := by
  induction l₁ with
  | nil => simp [List.dropWhile_cons, h₂]
  | cons x xs ih =>
    have hx := h₁ x (by simp)
    simp only [List.cons_append, List.dropWhile_cons, hx, if_true]
    exact ih (fun y hy => h₁ y (by simp [hy]))

theorem getLast?_cons_of_ne_nil {α : Type} (a : α) (l : List α) (h : l ≠ []) :
    (a :: l).getLast? = l.getLast? := by
  cases l with
  | nil => exact absurd rfl h
  | cons b l' => exact List.getLast?_cons_cons

theorem take_eq_take_min {α : Type} (l : List α) (n : Nat) :
    l.take n = l.take (min n l.length) := by
  rcases le_total n l.length with h | h
  · rw [Nat.min_eq_left h]
  · rw [Nat.min_eq_right h, List.take_of_length_le h, List.take_length]

theorem memberIdAt_eq (roster : List GuildMember) (k : Nat) (hk0 : 0 < k)
    (hk : k ≤ roster.length) (hlt : k - 1 < roster.length) :
    memberIdAt roster k = roster[k - 1].user.id := by
  rw [memberIdAt, List.getD_eq_getElem?_getD, List.getElem?_map,
    List.getElem?_eq_getElem hlt]
  rfl

theorem getLast?_take_eq (roster : List GuildMember) (k : Nat) (hk0 : 0 < k)
    (hk : k ≤ roster.length) (hlt : k - 1 < roster.length) :
    (roster.take k).getLast? = some (roster[k - 1]) := by
  rw [List.getLast?_take, if_neg (by omega), List.getElem?_eq_getElem hlt]
  rfl

theorem pagedUpstream_cursor (roster : List GuildMember)
    (hids : (roster.map (fun m => m.user.id)).Nodup)
    (k : Nat) (hk0 : 0 < k) (hk : k ≤ roster.length) :
    pagedUpstream roster (some (memberIdAt roster k))
      = ⟨200, .arr ((roster.drop k).take pageSize)⟩ := by
  have hlt : k - 1 < roster.length := by omega
  have hid := memberIdAt_eq roster k hk0 hk hlt
  have hdrop : roster.drop (k - 1) = roster[k - 1] :: roster.drop k := by
    have h1 : k - 1 + 1 = k := Nat.succ_pred_eq_of_pos hk0
    rw [List.drop_eq_getElem_cons hlt, h1]
  have hdecomp : roster = roster.take (k - 1) ++ roster[k - 1] :: roster.drop k := by
    conv_lhs => rw [← List.take_append_drop (k - 1) roster]
    rw [hdrop]
  have hnotmem : roster[k - 1].user.id ∉ (roster.take (k - 1)).map (fun m => m.user.id) := by
    have h1 : ((roster.take (k - 1) ++ roster[k - 1] :: roster.drop k).map
        (fun m => m.user.id)).Nodup := by
      rw [← hdecomp]
      exact hids
    simp only [List.map_append, List.map_cons] at h1
    rw [List.nodup_middle, List.nodup_cons] at h1
    intro hmem
    exact h1.1 (List.mem_append_left _ hmem)
  have hpre : ∀ x ∈ roster.take (k - 1),
      (fun m => decide (m.user.id ≠ roster[k - 1].user.id)) x = true := by
    intro x hx
    simp only [decide_eq_true_eq]
    intro hEq
    exact hnotmem (List.mem_map.mpr ⟨x, hx, hEq⟩)
  have key : roster.dropWhile (fun m => decide (m.user.id ≠ roster[k - 1].user.id))
      = roster[k - 1] :: roster.drop k := by
    calc roster.dropWhile (fun m => decide (m.user.id ≠ roster[k - 1].user.id))
        = ((roster.take (k - 1) ++ roster[k - 1] :: roster.drop k).dropWhile
            (fun m => decide (m.user.id ≠ roster[k - 1].user.id))) := by
          rw [← hdecomp]
      _ = roster[k - 1] :: roster.drop k :=
          dropWhile_middle_eq _ _ _ _ hpre (by simp)
  simp only [pagedUpstream, hid, key]
  simp

theorem pagedUpstream_none (roster : List GuildMember) :
    pagedUpstream roster none = ⟨200, .arr (roster.take pageSize)⟩ := rfl

theorem drop_take_page_ne_nil (roster : List GuildMember) (k : Nat)
    (hklt : k < roster.length) :
    (roster.drop k).take pageSize ≠ [] := by
  apply List.ne_nil_of_length_pos
  simp only [List.length_take, List.length_drop, pageSize]
  omega

theorem pagedUpstream_at_end (roster : List GuildMember)
    (hids : (roster.map (fun m => m.user.id)).Nodup) (hg : 0 < roster.length) :
    (pagedUpstream roster (some (memberIdAt roster roster.length))).body = .arr [] := by
  rw [pagedUpstream_cursor roster hids roster.length hg le_rfl]
  simp [List.drop_length]

theorem fetch_paged_last (roster : List GuildMember)
    (hids : (roster.map (fun m => m.user.id)).Nodup)
    (fuel : Nat) (st : Store) (hg : 0 < roster.length) :
    fetchAllGuildMembers (pagedUpstream roster) (fuel + 1) st roster
        (some (memberIdAt roster roster.length))
      = ⟨.ok (JSONstringify roster), [some (memberIdAt roster roster.length)], st⟩ :=
  fetchAllGuildMembers_succ_arr_nil _ fuel st roster _ (pagedUpstream_at_end roster hids hg)

theorem fetch_paged_step (roster : List GuildMember)
    (hids : (roster.map (fun m => m.user.id)).Nodup)
    (fuel : Nat) (st : Store) (k : Nat) (hk0 : 0 < k) (hklt : k < roster.length) :
    fetchAllGuildMembers (pagedUpstream roster) (fuel + 1) st (roster.take k)
        (some (memberIdAt roster k))
      = ⟨(fetchAllGuildMembers (pagedUpstream roster) fuel st
            (roster.take (min (k + pageSize) roster.length))
            (some (memberIdAt roster (min (k + pageSize) roster.length)))).result,
         some (memberIdAt roster k)
           :: (fetchAllGuildMembers (pagedUpstream roster) fuel st
            (roster.take (min (k + pageSize) roster.length))
            (some (memberIdAt roster (min (k + pageSize) roster.length)))).requests,
         (fetchAllGuildMembers (pagedUpstream roster) fuel st
            (roster.take (min (k + pageSize) roster.length))
            (some (memberIdAt roster (min (k + pageSize) roster.length)))).store⟩ := by
  have hbody : (pagedUpstream roster (some (memberIdAt roster k))).body
      = .arr ((roster.drop k).take pageSize) := by
    rw [pagedUpstream_cursor roster hids k hk0 (le_of_lt hklt)]
  have hpos := drop_take_page_ne_nil roster k hklt
  have hcomb : roster.take k ++ (roster.drop k).take pageSize
      = roster.take (min (k + pageSize) roster.length) := by
    rw [← List.take_add, ← take_eq_take_min]
  have hk'0 : 0 < min (k + pageSize) roster.length := by
    simp only [pageSize]
    omega
  have hk'le : min (k + pageSize) roster.length ≤ roster.length := Nat.min_le_right _ _
  have hlt' : min (k + pageSize) roster.length - 1 < roster.length := by omega
  have hlast : (roster.take (min (k + pageSize) roster.length)).getLast?
      = some (roster[min (k + pageSize) roster.length - 1]) :=
    getLast?_take_eq roster _ hk'0 hk'le hlt'
  have hlastid : roster[min (k + pageSize) roster.length - 1].user.id
      = memberIdAt roster (min (k + pageSize) roster.length) :=
    (memberIdAt_eq roster _ hk'0 hk'le hlt').symm
  have hmain := fetchAllGuildMembers_succ_arr_pos (pagedUpstream roster) fuel st
    (roster.take k) (some (memberIdAt roster k)) ((roster.drop k).take pageSize) hbody hpos
    (roster[min (k + pageSize) roster.length - 1]) (by rw [hcomb]; exact hlast)
  rw [hmain, hcomb, hlastid]

theorem take_page_ne_nil0 (roster : List GuildMember) (hg : 0 < roster.length) :
    roster.take pageSize ≠ [] := by
  apply List.ne_nil_of_length_pos
  simp only [List.length_take, pageSize]
  omega

theorem fetch_paged_start (roster : List GuildMember) (f : Nat) (st : Store)
    (hg : 0 < roster.length) :
    fetchAllGuildMembers (pagedUpstream roster) (f + 1) st [] none
      = ⟨(fetchAllGuildMembers (pagedUpstream roster) f st
            (roster.take (min pageSize roster.length))
            (some (memberIdAt roster (min pageSize roster.length)))).result,
         none :: (fetchAllGuildMembers (pagedUpstream roster) f st
            (roster.take (min pageSize roster.length))
            (some (memberIdAt roster (min pageSize roster.length)))).requests,
         (fetchAllGuildMembers (pagedUpstream roster) f st
            (roster.take (min pageSize roster.length))
            (some (memberIdAt roster (min pageSize roster.length)))).store⟩ := by
  have hpage1 : (pagedUpstream roster none).body = .arr (roster.take pageSize) := by
    rw [pagedUpstream_none]
  have hpos := take_page_ne_nil0 roster hg
  have hk10 : 0 < min pageSize roster.length := by
    simp only [pageSize]
    omega
  have hk1le : min pageSize roster.length ≤ roster.length := Nat.min_le_right _ _
  have hlt1 : min pageSize roster.length - 1 < roster.length := by omega
  have hcomb : ([] : List GuildMember) ++ roster.take pageSize
      = roster.take (min pageSize roster.length) := by
    rw [List.nil_append, ← take_eq_take_min]
  have hlast : (roster.take (min pageSize roster.length)).getLast?
      = some (roster[min pageSize roster.length - 1]) :=
    getLast?_take_eq roster _ hk10 hk1le hlt1
  have hlastid : roster[min pageSize roster.length - 1].user.id
      = memberIdAt roster (min pageSize roster.length) :=
    (memberIdAt_eq roster _ hk10 hk1le hlt1).symm
  have hmain := fetchAllGuildMembers_succ_arr_pos (pagedUpstream roster) f st
    [] none (roster.take pageSize) hpage1 hpos
    (roster[min pageSize roster.length - 1]) (by rw [hcomb]; exact hlast)
  rw [hmain, hcomb, hlastid]

theorem fetch_paged_loop (roster : List GuildMember)
    (hids : (roster.map (fun m => m.user.id)).Nodup) :
    ∀ fuel k st, 0 < k → k ≤ roster.length → roster.length - k < fuel →
      (fetchAllGuildMembers (pagedUpstream roster) fuel st (roster.take k)
          (some (memberIdAt roster k))).result = .ok (JSONstringify roster) ∧
      (fetchAllGuildMembers (pagedUpstream roster) fuel st (roster.take k)
          (some (memberIdAt roster k))).requests.length
        = (roster.length - k + pageSize - 1) / pageSize + 1 ∧
      (fetchAllGuildMembers (pagedUpstream roster) fuel st (roster.take k)
          (some (memberIdAt roster k))).requests ≠ [] ∧
      (∀ c ∈ (fetchAllGuildMembers (pagedUpstream roster) fuel st (roster.take k)
          (some (memberIdAt roster k))).requests.dropLast,
        ∃ ms, (pagedUpstream roster c).body = .arr ms ∧ ms ≠ []) ∧
      (∀ c ∈ (fetchAllGuildMembers (pagedUpstream roster) fuel st (roster.take k)
          (some (memberIdAt roster k))).requests.getLast?,
        (pagedUpstream roster c).body = .arr []) := by
  intro fuel
  induction fuel with
  | zero =>
    intro k st hk0 hk hfuel
    omega
  | succ fuel ih =>
    intro k st hk0 hk hfuel
    rcases eq_or_lt_of_le hk with hkg | hklt
    · subst hkg
      rw [List.take_length, fetch_paged_last roster hids fuel st (by omega)]
      refine ⟨rfl, ?_, by simp, ?_, ?_⟩
      · simp only [List.length_cons, List.length_nil, pageSize]
        omega
      · intro c hc
        simp at hc
      · intro c hc
        simp only [List.getLast?_singleton, Option.mem_def, Option.some.injEq] at hc
        subst hc
        exact pagedUpstream_at_end roster hids (by omega)
    · rw [fetch_paged_step roster hids fuel st k hk0 hklt]
      have hk'0 : 0 < min (k + pageSize) roster.length := by
        simp only [pageSize]
        omega
      have hk'le : min (k + pageSize) roster.length ≤ roster.length := Nat.min_le_right _ _
      have hfuel' : roster.length - min (k + pageSize) roster.length < fuel := by
        simp only [pageSize] at hfuel ⊢
        omega
      obtain ⟨hres, hlen, hne, hdl, hgl⟩ := ih (min (k + pageSize) roster.length) st hk'0 hk'le hfuel'
      refine ⟨hres, ?_, by simp, ?_, ?_⟩
      · simp only [List.length_cons, hlen, pageSize]
        simp only [pageSize] at *
        omega
      · intro c hc
        rw [List.dropLast_cons_of_ne_nil hne] at hc
        rcases List.mem_cons.mp hc with hc | hc
        · subst hc
          refine ⟨(roster.drop k).take pageSize, ?_, drop_take_page_ne_nil roster k hklt⟩
          rw [pagedUpstream_cursor roster hids k hk0 (le_of_lt hklt)]
        · exact hdl c hc
      · intro c hc
        rw [getLast?_cons_of_ne_nil _ _ hne] at hc
        exact hgl c hc

theorem fetch_paged_run (roster : List GuildMember)
    (hids : (roster.map (fun m => m.user.id)).Nodup)
    (fuel : Nat) (st : Store) (hfuel : roster.length + 2 ≤ fuel) :
    (fetchAllGuildMembers (pagedUpstream roster) fuel st [] none).result
      = .ok (JSONstringify roster) ∧
    (fetchAllGuildMembers (pagedUpstream roster) fuel st [] none).requests.length
      = (roster.length + pageSize - 1) / pageSize + 1 ∧
    stopsAtFirstEmptyPage (pagedUpstream roster)
      (fetchAllGuildMembers (pagedUpstream roster) fuel st [] none).requests ∧
    (fetchAllGuildMembers (pagedUpstream roster) fuel st [] none).store = st := by
  have hst := fetchAllGuildMembers_store (pagedUpstream roster) fuel st [] none
  obtain ⟨f, rfl⟩ : ∃ f, fuel = f + 1 := ⟨fuel - 1, by omega⟩
  rcases Nat.eq_zero_or_pos roster.length with hg | hg
  · have hnil : roster = [] := List.length_eq_zero.mp hg
    subst hnil
    have hbody : (pagedUpstream [] none).body = .arr [] := by
      rw [pagedUpstream_none]
      simp
    rw [fetchAllGuildMembers_succ_arr_nil _ f st [] none hbody]
    refine ⟨rfl, by simp [pageSize], ⟨?_, ?_⟩, rfl⟩
    · intro c hc
      simp at hc
    · intro c hc
      simp only [List.getLast?_singleton, Option.mem_def, Option.some.injEq] at hc
      subst hc
      exact hbody
  · have hpage1 : (pagedUpstream roster none).body = .arr (roster.take pageSize) := by
      rw [pagedUpstream_none]
    have hpos := take_page_ne_nil0 roster hg
    have hk10 : 0 < min pageSize roster.length := by
      simp only [pageSize]
      omega
    have hk1le : min pageSize roster.length ≤ roster.length := Nat.min_le_right _ _
    have hlt1 : min pageSize roster.length - 1 < roster.length := by omega
    have hcomb : ([] : List GuildMember) ++ roster.take pageSize
        = roster.take (min pageSize roster.length) := by
      rw [List.nil_append, ← take_eq_take_min]
    have hlast : (roster.take (min pageSize roster.length)).getLast?
        = some (roster[min pageSize roster.length - 1]) :=
      getLast?_take_eq roster _ hk10 hk1le hlt1
    have hlastid : roster[min pageSize roster.length - 1].user.id
        = memberIdAt roster (min pageSize roster.length) :=
      (memberIdAt_eq roster _ hk10 hk1le hlt1).symm
    have hmain := fetchAllGuildMembers_succ_arr_pos (pagedUpstream roster) f st
      [] none (roster.take pageSize) hpage1 hpos
      (roster[min pageSize roster.length - 1]) (by rw [hcomb]; exact hlast)
    rw [hmain, hcomb, hlastid]
    obtain ⟨hres, hlen, hne, hdl, hgl⟩ :=
      fetch_paged_loop roster hids f (min pageSize roster.length) st hk10 hk1le
        (by simp only [pageSize] at hfuel ⊢; omega)
    refine ⟨hres, ?_, ⟨?_, ?_⟩, fetchAllGuildMembers_store _ f st _ _⟩
    · simp only [pageSize] at hlen ⊢
      simp only [List.length_cons, hlen]
      omega
    · intro c hc
      rw [List.dropLast_cons_of_ne_nil hne] at hc
      rcases List.mem_cons.mp hc with hc | hc
      · subst hc
        exact ⟨roster.take pageSize, hpage1, hpos⟩
      · exact hdl c hc
    · intro c hc
      rw [getLast?_cons_of_ne_nil _ _ hne] at hc
      exact hgl c hc

/-! ## Claim theorems -/

/-- C1: the claim asserts that with no snapshot ever persisted,
`isMemberOfGuild` returns a defined negative/unknown result for every
`userId`.  The code instead lets the absent store value flow into `.find`
and throws a `TypeError`; this theorem evaluates the code at the failing
configuration: for every store with nothing under the snapshot key and
every `userId`, the lookup raises the exception instead of returning a
result. -/
theorem C1_absent_snapshot_throws (st : Store) (uid : String)
    (h : st snapshotKey = none) :
    isMemberOfGuild st uid = (.error .typeError, st) :=
  isMemberOfGuild_absent st uid h

theorem C1_absent_snapshot_throws_witness :
    st0 snapshotKey = none ∧ isMemberOfGuild st0 "U1" = (.error .typeError, st0) :=
  ⟨rfl, C1_absent_snapshot_throws st0 "U1" rfl⟩

/-- A member record with `user.id = "u1"`, used in concrete scenarios. -/
def u1 : GuildMember := ⟨⟨"u1"⟩⟩

/-- Upstream refuting C2: the first page carries one member with status
200; every subsequent request is answered with status 429 and a parseable
non-array rate-limit payload. -/
def rateLimitedUpstream : Upstream := fun c =>
  match c with
  | none => ⟨200, .arr [u1]⟩
  | some _ => ⟨429, .nonArray⟩

/-- C2 counterexample: the claim asserts that any page with a non-2xx
status makes the fetch chain abort and discard the accumulated partial
results.  Against `rateLimitedUpstream`, whose second response has status
429 (with a parseable body), the run does not abort: it returns normally
with the partial result of the first page serialized, after exactly two
requests. -/
theorem C2_counterexample :
    (fetchAllGuildMembers rateLimitedUpstream 5 st0 [] none).result
        = .ok (JSONstringify [u1]) ∧
    (fetchAllGuildMembers rateLimitedUpstream 5 st0 [] none).requests
        = [none, some "u1"] ∧
    (fetchAllGuildMembers rateLimitedUpstream 5 st0 [] none).result ≠ .jsonThrow := by
  refine ⟨by decide, by decide, by decide⟩

/-- C2 (amended): if the page fetched by a call yields a malformed
(unparseable) body, the parse step throws: the call returns the exception
after that single request, the accumulated partial results are discarded
(no serialized output is produced), and — on every path, success or
failure — `fetchAllGuildMembers` performs no store mutation.  (A non-2xx
status with a parseable body is not detected: the status is never
inspected.) -/
theorem C2_malformed_aborts_and_no_store_write (upstream : Upstream) (fuel : Nat)
    (st : Store) (acc : List GuildMember) (c : Option String)
    (h : (upstream c).body = .malformed) :
    fetchAllGuildMembers upstream (fuel + 1) st acc c = ⟨.jsonThrow, [c], st⟩ ∧
    ∀ fuel' st' acc' c', (fetchAllGuildMembers upstream fuel' st' acc' c').store = st' :=
  ⟨fetchAllGuildMembers_succ_malformed upstream fuel st acc c h,
   fun fuel' st' acc' c' => fetchAllGuildMembers_store upstream fuel' st' acc' c'⟩

/-- Upstream whose every response body is unparseable. -/
def malformedUpstream : Upstream := fun _ => ⟨500, .malformed⟩

theorem C2_malformed_aborts_and_no_store_write_witness :
    (malformedUpstream none).body = .malformed ∧
    (fetchAllGuildMembers malformedUpstream (3 + 1) st0 [u1] none
        = ⟨.jsonThrow, [none], st0⟩ ∧
      ∀ fuel' st' acc' c',
        (fetchAllGuildMembers malformedUpstream fuel' st' acc' c').store = st') :=
  ⟨rfl, C2_malformed_aborts_and_no_store_write malformedUpstream 3 st0 [u1] none rfl⟩

/-- C4: when the fetched page parses to a non-empty member array, the call
continues on exactly `accumulated ++ page` (order preserved, elements —
duplicates included — passed through unchanged), the cursor passed to the
recursive call is the `user.id` of the last element of the combined
sequence, and the run is the recursion's run with this request prepended;
when the page is the empty array the call instead returns the serialized
form of `accumulated`. -/
theorem C4_nonempty_page_recurses_empty_page_returns (upstream : Upstream) (fuel : Nat)
    (st : Store) (acc : List GuildMember) (lastUserId : Option String)
    (page : List GuildMember)
    (harr : (upstream lastUserId).body = .arr page) :
    (∀ lastItem, page ≠ [] → (acc ++ page).getLast? = some lastItem →
      fetchAllGuildMembers upstream (fuel + 1) st acc lastUserId
        = ⟨(fetchAllGuildMembers upstream fuel st (acc ++ page)
              (some lastItem.user.id)).result,
           lastUserId :: (fetchAllGuildMembers upstream fuel st (acc ++ page)
              (some lastItem.user.id)).requests,
           (fetchAllGuildMembers upstream fuel st (acc ++ page)
              (some lastItem.user.id)).store⟩) ∧
    (page = [] →
      fetchAllGuildMembers upstream (fuel + 1) st acc lastUserId
        = ⟨.ok (JSONstringify acc), [lastUserId], st⟩) := by
  constructor
  · intro lastItem hne hlast
    exact fetchAllGuildMembers_succ_arr_pos upstream fuel st acc lastUserId page harr
      hne lastItem hlast
  · intro hnil
    subst hnil
    exact fetchAllGuildMembers_succ_arr_nil upstream fuel st acc lastUserId harr

theorem C4_nonempty_page_recurses_empty_page_returns_witness :
    (rateLimitedUpstream none).body = .arr [u1] ∧
    ((∀ lastItem, ([u1] : List GuildMember) ≠ [] →
        (([] : List GuildMember) ++ [u1]).getLast? = some lastItem →
        fetchAllGuildMembers rateLimitedUpstream (4 + 1) st0 [] none
          = ⟨(fetchAllGuildMembers rateLimitedUpstream 4 st0 ([] ++ [u1])
                (some lastItem.user.id)).result,
             none :: (fetchAllGuildMembers rateLimitedUpstream 4 st0 ([] ++ [u1])
                (some lastItem.user.id)).requests,
             (fetchAllGuildMembers rateLimitedUpstream 4 st0 ([] ++ [u1])
                (some lastItem.user.id)).store⟩) ∧
      (([u1] : List GuildMember) = [] →
        fetchAllGuildMembers rateLimitedUpstream (4 + 1) st0 [] none
          = ⟨.ok (JSONstringify []), [none], st0⟩)) :=
  ⟨rfl, C4_nonempty_page_recurses_empty_page_returns rateLimitedUpstream 4 st0 [] none
    [u1] rfl⟩

/-- C6: if the first page (fetched with empty accumulated list and no
cursor) parses to the empty array, the run returns the serialization of
the empty sequence after that single request, and that serialization is
the empty JSON collection `[]`. -/
theorem C6_empty_first_page (upstream : Upstream) (fuel : Nat) (st : Store)
    (h : (upstream none).body = .arr []) :
    fetchAllGuildMembers upstream (fuel + 1) st [] none
      = ⟨.ok (JSONstringify []), [none], st⟩ ∧
    JSONstringify ([] : List GuildMember) = "[]" :=
  ⟨fetchAllGuildMembers_succ_arr_nil upstream fuel st [] none h, rfl⟩

/-- Upstream serving an empty roster. -/
def emptyUpstream : Upstream := fun _ => ⟨200, .arr []⟩

theorem C6_empty_first_page_witness :
    (emptyUpstream none).body = .arr [] ∧
    (fetchAllGuildMembers emptyUpstream (2 + 1) st0 [] none
        = ⟨.ok (JSONstringify []), [none], st0⟩ ∧
      JSONstringify ([] : List GuildMember) = "[]") :=
  ⟨rfl, C6_empty_first_page emptyUpstream 2 st0 rfl⟩

/-- C8: `isMemberOfGuild` is read-only with respect to the shared store:
for every store state and every `userId` the store after the call is the
one before the call, so in particular the value persisted under the
snapshot key is unchanged. -/
theorem C8_lookup_is_readonly (st : Store) (uid : String) :
    (isMemberOfGuild st uid).2 = st ∧
    (isMemberOfGuild st uid).2 snapshotKey = st snapshotKey := by
  refine ⟨isMemberOfGuild_store st uid, ?_⟩
  rw [isMemberOfGuild_store st uid]

/-- C9: the cursor extraction `members[members.length - 1].user.id` is
only dereferenced on the branch where the new page is non-empty, in which
case the combined sequence is non-empty; hence no run of
`fetchAllGuildMembers` ever fails with the model's `derefThrow` outcome
(the `TypeError` that dereferencing an absent last element would raise).
The precondition that every member record carries a nested `user` object
with an `id` is the `GuildMember` structure itself. -/
theorem C9_last_element_deref_safe (upstream : Upstream) (fuel : Nat) (st : Store)
    (acc : List GuildMember) (c : Option String) :
    (fetchAllGuildMembers upstream fuel st acc c).result ≠ .derefThrow := by
  induction fuel generalizing acc c with
  | zero =>
    intro h
    exact absurd h (by simp [fetchAllGuildMembers])
  | succ fuel ih =>
    rw [fetchAllGuildMembers.eq_def]
    rcases h : (fetchGuildMembersChunk upstream c).body with page | _ | _
    · simp only [h]
      by_cases hp : 0 < page.length
      · rw [if_pos hp]
        have hpn : page ≠ [] := by
          intro hh
          subst hh
          simp at hp
        rcases hg : (acc ++ page).getLast? with _ | lastItem
        · rw [List.getLast?_append_of_ne_nil _ hpn] at hg
          rw [List.getLast?_eq_getElem?] at hg
          have := List.getElem?_eq_getElem (l := page) (n := page.length - 1) (by omega)
          rw [this] at hg
          exact absurd hg (by simp)
        · simp only [hg]
          exact ih _ _
      · rw [if_neg hp]
        simp
    · simp only [h]
      simp
    · simp only [h]
      simp

/-- C10: if a page response parses to a JSON value that is not an array
with positive length (for example an upstream rate-limit error object),
the routine does not fail: it takes the same branch as an empty page,
terminates after that request, and returns the serialization of only the
members accumulated from earlier pages — a silently truncated roster. -/
theorem C10_non_array_truncates_silently (upstream : Upstream) (fuel : Nat) (st : Store)
    (acc : List GuildMember) (c : Option String)
    (h : (upstream c).body = .nonArray) :
    fetchAllGuildMembers upstream (fuel + 1) st acc c
      = ⟨.ok (JSONstringify acc), [c], st⟩ :=
  fetchAllGuildMembers_succ_nonArray upstream fuel st acc c h

theorem C10_non_array_truncates_silently_witness :
    (rateLimitedUpstream (some "u1")).body = .nonArray ∧
    fetchAllGuildMembers rateLimitedUpstream (3 + 1) st0 [u1] (some "u1")
      = ⟨.ok (JSONstringify [u1]), [some "u1"], st0⟩ :=
  ⟨rfl, C10_non_array_truncates_silently rateLimitedUpstream 3 st0 [u1]
    (some "u1") rfl⟩

/-- C3: for every finite roster with (snowflake-unique) member ids served
by the cursor-paged upstream in pages of at most `pageSize = 1000`, the
fetch (started with empty accumulated list and no cursor, and given
sufficient recursion fuel) terminates normally with the serialization of
exactly the whole roster — same elements, same order, no duplicates —
issues exactly `⌈guildSize / pageSize⌉ + 1` page requests (hence at most
that many), and the request sequence stops exactly at its first
empty-page response. -/
theorem C3_paged_fetch_terminates_complete (roster : List GuildMember)
    (hids : (roster.map (fun m => m.user.id)).Nodup)
    (fuel : Nat) (st : Store) (hfuel : roster.length + 2 ≤ fuel) :
    (fetchAllGuildMembers (pagedUpstream roster) fuel st [] none).result
        = .ok (JSONstringify roster) ∧
    roster.Nodup ∧
    (fetchAllGuildMembers (pagedUpstream roster) fuel st [] none).requests.length
        = (roster.length + pageSize - 1) / pageSize + 1 ∧
    stopsAtFirstEmptyPage (pagedUpstream roster)
      (fetchAllGuildMembers (pagedUpstream roster) fuel st [] none).requests := by
  obtain ⟨h1, h2, h3, _⟩ := fetch_paged_run roster hids fuel st hfuel
  exact ⟨h1, List.Nodup.of_map _ hids, h2, h3⟩

/-- A two-member roster used to instantiate the paged-fetch theorems. -/
def twoRoster : List GuildMember := [⟨⟨"a"⟩⟩, ⟨⟨"b"⟩⟩]

theorem C3_paged_fetch_terminates_complete_witness :
    ((twoRoster.map (fun m => m.user.id)).Nodup ∧ twoRoster.length + 2 ≤ 4) ∧
    ((fetchAllGuildMembers (pagedUpstream twoRoster) 4 st0 [] none).result
        = .ok (JSONstringify twoRoster) ∧
      twoRoster.Nodup ∧
      (fetchAllGuildMembers (pagedUpstream twoRoster) 4 st0 [] none).requests.length
        = (twoRoster.length + pageSize - 1) / pageSize + 1 ∧
      stopsAtFirstEmptyPage (pagedUpstream twoRoster)
        (fetchAllGuildMembers (pagedUpstream twoRoster) 4 st0 [] none).requests) :=
  ⟨⟨by decide, by decide⟩,
   C3_paged_fetch_terminates_complete twoRoster (by decide) 4 st0 (by decide)⟩

/-- C5: against a persisted snapshot that is the serialization of a member
sequence, `isMemberOfGuild(userId)` returns `true` exactly when the
sequence contains an entry whose nested `user.id` equals `userId`; in
particular, with a snapshot containing only user `"U1"` it returns `true`
for `"U1"` and `false` for the absent `"U2"`. -/
theorem C5_lookup_decides_containment (st : Store) (ms : List GuildMember) (uid : String) :
    (isMemberOfGuild (storeSet st snapshotKey (JSONstringify ms)) uid).1
        = .ok (decide (∃ m ∈ ms, m.user.id = uid)) ∧
    (isMemberOfGuild (storeSet st0 snapshotKey (JSONstringify [⟨⟨"U1"⟩⟩])) "U1").1
        = .ok true ∧
    (isMemberOfGuild (storeSet st0 snapshotKey (JSONstringify [⟨⟨"U1"⟩⟩])) "U2").1
        = .ok false := by
  refine ⟨?_, by decide, by decide⟩
  rw [isMemberOfGuild_snapshot]
  dsimp only
  simp only [Except.ok.injEq]
  rw [Bool.eq_iff_iff]
  simp [List.find?_isSome]

/-- The concrete roster of 2500 members with pairwise distinct ids
(`"a"`, `"aa"`, ..., 2500 characters), instantiating the 2500-member
scenario. -/
def roster2500 : List GuildMember :=
  (List.range 2500).map (fun i => ⟨⟨String.mk (List.replicate (i + 1) 'a')⟩⟩)

theorem roster2500_length : roster2500.length = 2500 := by
  simp [roster2500]

theorem roster2500_ids_nodup : (roster2500.map (fun m => m.user.id)).Nodup := by
  rw [roster2500, List.map_map]
  refine List.Nodup.map ?_ (List.nodup_range 2500)
  intro a b hab
  have h1 := congrArg String.data hab
  simp only [Function.comp] at h1
  have h2 := congrArg List.length h1
  simp at h2
  omega

/-- C7 counterexample: the claim says the 2500-member scenario issues
exactly three requests.  On the concrete 2500-member roster the run
issues `⌈2500/1000⌉ + 1 = 4` requests — the code cannot detect exhaustion
from the short third page and must fetch a fourth, empty page — so the
request count is not 3. -/
theorem C7_counterexample_not_three_requests :
    ¬ ((fetchAllGuildMembers (pagedUpstream roster2500) 2502 st0 [] none).requests.length
        = 3) := by
  obtain ⟨_, hlen, _, _⟩ := fetch_paged_run roster2500 roster2500_ids_nodup 2502 st0
    (by rw [roster2500_length])
  rw [hlen, roster2500_length]
  decide

/-- C7 (amended): in the 2500-member scenario (any roster of 2500 members
with distinct ids), the fetch issues exactly four requests, with cursors
none → id of the 1000th member → id of the 2000th member → id of the
2500th member (the last request receiving the empty page that terminates
the run); the final sequence is the whole roster — 2500 entries, no
duplicates; and after the snapshot is persisted, `isMemberOfGuild` on the
2500th member's id returns `true`. -/
theorem C7_amended_four_requests (roster : List GuildMember) (hlen : roster.length = 2500)
    (hids : (roster.map (fun m => m.user.id)).Nodup) (st : Store) :
    (fetchAllGuildMembers (pagedUpstream roster) 2502 st [] none).result
        = .ok (JSONstringify roster) ∧
    (fetchAllGuildMembers (pagedUpstream roster) 2502 st [] none).requests
        = [none, some (memberIdAt roster 1000), some (memberIdAt roster 2000),
           some (memberIdAt roster 2500)] ∧
    (fetchAllGuildMembers (pagedUpstream roster) 2502 st [] none).requests.length = 4 ∧
    roster.Nodup ∧
    (isMemberOfGuild (storeSet st snapshotKey (JSONstringify roster))
        (memberIdAt roster 2500)).1 = .ok true := by
  have hmin1 : min pageSize roster.length = 1000 := by
    rw [hlen]
    simp only [pageSize]
    omega
  have hmin2 : min (1000 + pageSize) roster.length = 2000 := by
    rw [hlen]
    simp only [pageSize]
    omega
  have hmin3 : min (2000 + pageSize) roster.length = 2500 := by
    rw [hlen]
    simp only [pageSize]
    omega
  have htake : roster.take 2500 = roster := by
    rw [← hlen]
    exact List.take_length roster
  have h1 := fetch_paged_start roster 2501 st (by omega)
  rw [hmin1] at h1
  have h2 := fetch_paged_step roster hids 2500 st 1000 (by omega) (by omega)
  rw [hmin2] at h2
  have h3 := fetch_paged_step roster hids 2499 st 2000 (by omega) (by omega)
  rw [hmin3, htake] at h3
  have h4 := fetch_paged_last roster hids 2498 st (by omega)
  rw [hlen] at h4
  norm_num at h1 h2 h3 h4
  rw [h4] at h3
  dsimp only at h3
  rw [h3] at h2
  dsimp only at h2
  rw [h2] at h1
  dsimp only at h1
  have hx : 2500 - 1 < roster.length := by omega
  have h5 := memberIdAt_eq roster 2500 (by omega) (by omega) hx
  refine ⟨by rw [h1], by rw [h1], by rw [h1]; rfl, List.Nodup.of_map _ hids, ?_⟩
  rw [isMemberOfGuild_snapshot]
  dsimp only
  simp only [Except.ok.injEq]
  refine (List.find?_isSome).mpr ⟨roster[2500 - 1], List.getElem_mem hx, ?_⟩
  rw [h5]
  simp

theorem C7_amended_four_requests_witness :
    (roster2500.length = 2500 ∧ (roster2500.map (fun m => m.user.id)).Nodup) ∧
    ((fetchAllGuildMembers (pagedUpstream roster2500) 2502 st0 [] none).result
        = .ok (JSONstringify roster2500) ∧
      (fetchAllGuildMembers (pagedUpstream roster2500) 2502 st0 [] none).requests
        = [none, some (memberIdAt roster2500 1000), some (memberIdAt roster2500 2000),
           some (memberIdAt roster2500 2500)] ∧
      (fetchAllGuildMembers (pagedUpstream roster2500) 2502 st0 [] none).requests.length
        = 4 ∧
      roster2500.Nodup ∧
      (isMemberOfGuild (storeSet st0 snapshotKey (JSONstringify roster2500))
          (memberIdAt roster2500 2500)).1 = .ok true) :=
  ⟨⟨roster2500_length, roster2500_ids_nodup⟩,
   C7_amended_four_requests roster2500 roster2500_length roster2500_ids_nodup st0⟩

end Market
